import Mathlib

/-!
# Verification of the xvsh shell (xvsh.c)

A shallow embedding of the xv6 user shell in `src/xvsh.c`, together with
theorems about its parser (tokenization, `&` / `|` / `>` detection), its
executors (plain, redirection, pipeline) and its exit builtin.

Modelling conventions:
* A line buffer is a `List Char`; the C terminating NUL is implicit — reading
  past the end of the list yields the NUL character (`List.getD`-style), and
  `strtok_custom`'s in-place writes of NUL bytes are modelled by rebuilding
  the list with `nulC` at the written position.
* The parent process's interaction with the kernel (fork, pipe, open, wait,
  error prints, the exit syscall) is modelled as an event trace `List Ev`
  threaded through a state `S`; syscall success and failure is decided by an
  oracle environment `Env`.
* The per-process file-descriptor table of xv6 (dup allocating the lowest
  free descriptor, close freeing a slot, pipe allocating the read end then
  the write end) is modelled separately by `FdTab` for the pipeline child's
  descriptor wiring.
-/

/-- The NUL character that terminates C strings. -/
def nulC : Char := Char.ofNat 0

/-- Delimiter set `" "` used by the whitespace tokenization calls. -/
def spaceD : List Char := [' ']

/-- Delimiter set `"|"` used by the pipe-splitting calls. -/
def pipeD : List Char := ['|']

/-- The token `"&"` (background marker). -/
def ampTok : List Char := ['&']

/-- The token `"exit"` (terminating builtin name). -/
def exitTok : List Char := ['e', 'x', 'i', 't']

/-- The token `"|"`. -/
def pipeTok : List Char := ['|']

/-- The token `">"`. -/
def gtTok : List Char := ['>']

/-- One call of `strtok_custom(s, delim)` (src/xvsh.c lines 24-64), viewed as a
pure function of the still-unscanned suffix `s` of the buffer (everything from
the passed pointer, resp. the saved `last` cursor, up to the end of the
buffer).  Mirrors the C code:

* the first loop skips leading delimiter characters (without writing);
* if the character reached is NUL the call returns NULL and clears `last`
  (result `none`, suffix unchanged);
* otherwise the token is the maximal run of non-delimiter, non-NUL characters;
  if the scan stops on a delimiter character, that byte is overwritten with
  NUL and `last` is set just past it (`cont = true`); if it stops on NUL (or
  the end of the buffer), nothing is written and `last` is cleared
  (`cont = false`).

The result `some (pre, tv, cont, rest)` gives the consumed prefix `pre` as it
reads after the call's mutation (the buffer suffix afterwards is
`pre ++ rest`), the token value `tv`, the `cont` flag, and the suffix `rest`
that the next `strtok_custom(NULL, ·)` call would scan. -/
def strtok_step (d : List Char) (s : List Char) :
    Option (List Char × List Char × Bool × List Char) :=
  let sk := s.takeWhile (fun c => d.contains c)
  let s1 := s.dropWhile (fun c => d.contains c)
  let tv := s1.takeWhile (fun c => !(d.contains c) && !(c == nulC))
  let s2 := s1.dropWhile (fun c => !(d.contains c) && !(c == nulC))
  if tv.isEmpty then none
  else
    match s2 with
    | [] => some (sk ++ tv, tv, false, [])
    | c :: r =>
      if c == nulC then some (sk ++ tv, tv, false, c :: r)
      else some (sk ++ tv ++ [nulC], tv, true, r)

/-- The token-collecting `while` loop of `process_one_cmd` (lines 255-262):
repeated `strtok_custom(NULL, " ")` calls; a token equal to `"&"` sets the
background flag, is dropped (`tok[i] = NULL`), and breaks the loop.  Returns
the collected tokens, the background flag, and the buffer suffix after the
loop's mutations.  `fuel` bounds the number of iterations; `length + 1` is
always enough because every produced token consumes at least one character. -/
def spaceLoop : Nat → List Char → List (List Char) × Bool × List Char
  | 0, s => ([], false, s)
  | fuel + 1, s =>
    match strtok_step spaceD s with
    | none => ([], false, s)
    | some (pre, tv, cont, rest) =>
      if tv == ampTok then ([], true, pre ++ rest)
      else if cont then
        match spaceLoop fuel rest with
        | (ts, bg, rest') => (tv :: ts, bg, pre ++ rest')
      else ([tv], false, pre ++ rest)

/-- Lines 251-262 of `process_one_cmd`: `tok[0] = strtok_custom(buf, " ")`
followed by the loop.  The first token is not checked against `"&"`.  Returns
(tokens, background flag, mutated buffer). -/
def spacePass (l : List Char) : List (List Char) × Bool × List Char :=
  match strtok_step spaceD l with
  | none => ([], false, l)
  | some (pre, tv, cont, rest) =>
    if cont then
      match spaceLoop (l.length + 1) rest with
      | (ts, bg, rest') => (tv :: ts, bg, pre ++ rest')
    else ([tv], false, pre ++ rest)

/-- All tokens of one full `strtok_custom` pass over a buffer with delimiter
set `d` (no `&` handling): the sequence of values returned until a call
returns NULL or clears the cursor. -/
def allToks (d : List Char) : Nat → List Char → List (List Char)
  | 0, _ => []
  | fuel + 1, s =>
    match strtok_step d s with
    | none => []
    | some (_, tv, cont, rest) => if cont then tv :: allToks d fuel rest else [tv]

/-- Specification-side reference: the whitespace split of a line (maximal
nonempty runs of non-space characters). -/
def wsTokens : Nat → List Char → List (List Char)
  | 0, _ => []
  | fuel + 1, s =>
    let s1 := s.dropWhile (fun c => c == ' ')
    if s1.isEmpty then []
    else s1.takeWhile (fun c => !(c == ' ')) :: wsTokens fuel (s1.dropWhile (fun c => !(c == ' ')))

/-- The whitespace split of a line (wrapper fixing sufficient fuel). -/
def wsSplit (l : List Char) : List (List Char) := wsTokens (l.length + 1) l

/-- Specification-side reference: split a line on a separator character,
keeping empty segments — the "`|`-separated command-strings" of the claim. -/
def splitOnChar (d : Char) : List Char → List (List Char)
  | [] => [[]]
  | c :: r =>
    if c == d then [] :: splitOnChar d r
    else
      match splitOnChar d r with
      | [] => [[c]]
      | a :: rest => (c :: a) :: rest

/-- Specification-side reference for the pipeline stage list: the
`|`-separated command-strings of the original line, leading spaces trimmed
from each. -/
def pipeSplitSpec (l : List Char) : List (List Char) :=
  (splitOnChar '|' l).map (fun c => c.dropWhile (fun x => x == ' '))

/-- `exit_check` (lines 67-69): the first token exists and equals `"exit"`. -/
def exit_check (tok : List (List Char)) : Bool := tok.head? == some exitTok

/-- Lines 272-278: scan the token list for a token equal to `"|"`. -/
def pipe_present (tok : List (List Char)) : Bool := tok.contains pipeTok

/-- Lines 297-303: scan the token list for a token equal to `">"`. -/
def redir_present (tok : List (List Char)) : Bool := tok.contains gtTok

/-- The `'|'`-split loop of `process_one_cmd` (lines 284-290) runs
`strtok_custom` with delimiter `"|"` over the (already space-tokenized, hence
mutated) buffer, trims leading spaces from each returned command-string, and
stores at most `MAXTOKENS = 16` of them (`num_commands < MAXTOKENS` guard). -/
def split_pipe_cmds (mb : List Char) : List (List Char) :=
  ((allToks pipeD (mb.length + 1) mb).map (fun c => c.dropWhile (fun x => x == ' '))).take 16

/-- The final value of `num_commands` after the split loop: the number of
stored command-strings, capped at 16. -/
def split_count (mb : List Char) : Nat :=
  min (allToks pipeD (mb.length + 1) mb).length 16

/-- The indices of all stores into the 16-slot array `char *commands[MAXTOKENS]`
on the pipe path: `commands[0] .. commands[num_commands-1]` inside the loop and
the sentinel store `commands[num_commands] = NULL_PTR` after it (line 291). -/
def split_store_idxs (mb : List Char) : List Nat :=
  List.range (split_count mb) ++ [split_count mb]

/-- The pipeline stage list a given input line produces: `some stages` when
the line is classified as a pipeline (a whitespace token equals `"|"`),
`none` otherwise.  Composes the whitespace pass (which mutates the buffer)
with the `'|'`-split of the mutated buffer, exactly as lines 251-293 do. -/
def line_pipe_stages (l : List Char) : Option (List (List Char)) :=
  match spacePass l with
  | (tok, _, mb) => if pipe_present tok then some (split_pipe_cmds mb) else none

/-- The store indices into `commands[]` that processing a given input line
performs (empty when the line is not classified as a pipeline). -/
def line_split_stores (l : List Char) : List Nat :=
  match spacePass l with
  | (tok, _, mb) => if pipe_present tok then split_store_idxs mb else []

/-- The `j < MAXTOKENS - 1` capped whitespace tokenization of one pipeline
stage's command-string (lines 129-134): at most 15 argument tokens are stored,
the sentinel `args[j]` then lands at index at most 15. -/
def stageArgs (c : List Char) : List (List Char) :=
  (allToks spaceD (c.length + 1) c).take 15

/-- The mode bits passed to `open` at line 196: `O_CREATE | O_WRONLY`.
xv6's open flags have no truncate bit and none is passed. -/
structure OpenMode where
  create : Bool
  wronly : Bool
  trunc : Bool
deriving DecidableEq

/-- The concrete mode used by `execute_redirection`: create-if-missing and
write-only; no truncation. -/
def xvshMode : OpenMode := ⟨true, true, false⟩

/-- Observable events of the shell (parent) process, plus a per-child summary
event recorded at the point the child is forked. -/
inductive Ev where
  /-- a successful `pipe(fd)` call -/
  | pipeCreated : Ev
  /-- a successful `fork()` call -/
  | forked : Ev
  /-- summary of a pipeline child (lines 147-159): its exec argument vector;
  its descriptor wiring is modelled by `childWire` -/
  | childPiped : List (List Char) → Ev
  /-- summary of a plain/redirection child: exec argument vector, whether the
  child ran `dup(fd); close(fd)` on an opened file first, and whether its
  `exec` succeeded (on failure the child prints and exits; the parent is
  unaffected either way) -/
  | childExec : List (List Char) → Bool → Bool → Ev
  /-- a successful `open(path, mode)` call -/
  | opened : List Char → OpenMode → Ev
  /-- `printf(2, "Cannot open file %s\n", outfile)` -/
  | errOpen : List Char → Ev
  /-- `printf(2, "Fork failed\n")` -/
  | errFork : Ev
  /-- `printf(2, "Pipe failed\n")` -/
  | errPipe : Ev
  /-- `printf(1, "malloc failed\n")` -/
  | errMalloc : Ev
  /-- a `wait()` call that reaped a child (returned a pid `>= 0`) -/
  | waitOk : Ev
  /-- a `wait()` call that failed (returned `< 0`: no children remain) -/
  | waitFail : Ev
  /-- `printf(1, "[pid %d] runs as a background process\n", pid)` -/
  | bgReport : Ev
  /-- the shell process itself called `exit()` -/
  | shellExit : Ev
  /-- `printf(1, SH_PROMPT)` -/
  | prompt : Ev
deriving DecidableEq

/-- Shell-side state threaded through the executors: the number of live child
processes (wait succeeds exactly when it is nonzero), call counters indexing
the fork/pipe oracles, and the event trace. -/
structure S where
  children : Nat
  forkCt : Nat
  pipeCt : Nat
  trace : List Ev
deriving DecidableEq

/-- Environment oracle fixing the outcome of each system call: `forkOk k`
(resp. `pipeOk k`) is the success of the `k`-th fork (resp. pipe) call,
`mallocOk`/`openOk` the success of the single malloc/open a line performs,
and `execOk` whether a child's `exec` succeeds. -/
structure Env where
  mallocOk : Bool
  forkOk : Nat → Bool
  pipeOk : Nat → Bool
  openOk : Bool
  execOk : Bool

/-- Append one event to the trace. -/
def addEv (v : Ev) (s : S) : S := { s with trace := s.trace ++ [v] }

/-- A `fork()` call: consult the oracle; on success a child exists. -/
def forkCall (e : Env) (s : S) : Bool × S :=
  (e.forkOk s.forkCt,
    if e.forkOk s.forkCt then
      { s with forkCt := s.forkCt + 1, children := s.children + 1,
               trace := s.trace ++ [Ev.forked] }
    else { s with forkCt := s.forkCt + 1 })

/-- A `pipe(fd)` call: consult the oracle. -/
def pipeCall (e : Env) (s : S) : Bool × S :=
  (e.pipeOk s.pipeCt,
    if e.pipeOk s.pipeCt then
      { s with pipeCt := s.pipeCt + 1, trace := s.trace ++ [Ev.pipeCreated] }
    else { s with pipeCt := s.pipeCt + 1 })

/-- A `wait()` call: returns a pid `>= 0` and reaps one child when one exists,
`-1` otherwise. -/
def waitCall (s : S) : Int × S :=
  if s.children = 0 then (-1, addEv Ev.waitFail s)
  else (1, { s with children := s.children - 1, trace := s.trace ++ [Ev.waitOk] })

/-- `process_normal` (lines 81-102): fork; on failure report and return `-1`;
the child execs `tok`; the parent waits when foreground, otherwise reports the
child pid and returns. -/
def process_normal (e : Env) (tok : List (List Char)) (bg : Bool) (s : S) : Int × S :=
  match forkCall e s with
  | (ok, s1) =>
    if !ok then (-1, addEv Ev.errFork s1)
    else
      let s2 := addEv (Ev.childExec tok false e.execOk) s1
      if !bg then (0, (waitCall s2).2)
      else (0, addEv Ev.bgReport s2)

/-- The `while` loop of `wait_for_background_processes` (lines 72-78):
`wait()` until it returns `< 0`.  `fuel = children + 1` is exactly enough. -/
def drainGo : Nat → S → S
  | 0, s => s
  | fuel + 1, s =>
    match waitCall s with
    | (pid, s') => if pid < 0 then s' else drainGo fuel s'

/-- `wait_for_background_processes` (lines 72-78). -/
def wait_for_background_processes (s : S) : S := drainGo (s.children + 1) s

/-- The scanning loop of `execute_redirection` (lines 184-193):
`while (tok[i] != NULL_PTR && i < MAXTOKENS - 1)`, copying tokens into
`cmd_args` until a `">"` token is found, whose successor (possibly the NULL
sentinel) becomes `outfile`.  `MAXTOKENS - 1 = 15`. -/
def redirScanGo : List (List Char) → Nat → List (List Char) × Option (List Char)
  | [], _ => ([], none)
  | t :: rest, i =>
    if i < 15 then
      if t == gtTok then ([], rest.head?)
      else
        match redirScanGo rest (i + 1) with
        | (as, o) => (t :: as, o)
    else ([], none)

/-- The scan of `execute_redirection` starting at `i = 0`. -/
def redirScan (tok : List (List Char)) : List (List Char) × Option (List Char) :=
  redirScanGo tok 0

/-- Lines 203-229 of `execute_redirection`: fork (report and return `-1` on
failure); the child optionally dups the opened file descriptor and execs
`cmd_args`; the parent closes the file descriptor, then waits (foreground) or
reports the child pid (background). -/
def redirExec (e : Env) (cmd_args : List (List Char)) (hasFile : Bool) (bg : Bool)
    (s : S) : Int × S :=
  match forkCall e s with
  | (ok, s1) =>
    if !ok then (-1, addEv Ev.errFork s1)
    else
      let s2 := addEv (Ev.childExec cmd_args hasFile e.execOk) s1
      if !bg then (0, (waitCall s2).2)
      else (0, addEv Ev.bgReport s2)

/-- `execute_redirection` (lines 177-230): scan for `">"`; when an outfile was
assigned, open it with `O_CREATE | O_WRONLY` (report and return `-1` if the
open fails, without forking); then fork and run. -/
def execute_redirection (e : Env) (tok : List (List Char)) (bg : Bool) (s : S) : Int × S :=
  match redirScan tok with
  | (cmd_args, some f) =>
    if e.openOk then redirExec e cmd_args true bg (addEv (Ev.opened f xvshMode) s)
    else (-1, addEv (Ev.errOpen f) s)
  | (cmd_args, none) => redirExec e cmd_args false bg s

/-- The parent's wait loop of `execute_piped_commands` (lines 169-171):
exactly `num_commands` calls of `wait()`. -/
def waitLoopN : Nat → S → S
  | 0, s => s
  | k + 1, s => waitLoopN k (waitCall s).2

/-- The stage loop of `execute_piped_commands` (lines 124-166): for each
command-string, tokenize it (cap 15 arguments), call `pipe` — note:
unconditionally, also for the last stage — then `fork`; pipe or fork failure
reports and returns `-1` immediately.  After the loop the parent waits
`n = num_commands` times. -/
def execPipedGo (e : Env) (n : Nat) : List (List Char) → S → Int × S
  | [], s => (0, waitLoopN n s)
  | c :: rest, s =>
    let args := stageArgs c
    match pipeCall e s with
    | (pok, s1) =>
      if !pok then (-1, addEv Ev.errPipe s1)
      else
        match forkCall e s1 with
        | (fok, s2) =>
          if !fok then (-1, addEv Ev.errFork s2)
          else execPipedGo e n rest (addEv (Ev.childPiped args) s2)

/-- `execute_piped_commands` (lines 119-174). -/
def execute_piped_commands (e : Env) (cmds : List (List Char)) (s : S) : Int × S :=
  execPipedGo e cmds.length cmds s

/-- Outcome of processing one command line: the function returned to the read
loop, or the shell process itself exited. -/
inductive Outcome where
  | returned : Int → Outcome
  | exited : Outcome
deriving DecidableEq

/-- `process_one_cmd` (lines 233-316): malloc the token array (on failure
print and `exit()` the shell); whitespace-tokenize with `&` handling; if the
first token is `"exit"`, drain all children and `exit()`; else dispatch on a
`"|"` token (pipe split of the mutated buffer, pipeline executor), a `">"`
token (redirection executor), or neither (plain executor); return 0. -/
def process_one_cmd (e : Env) (l : List Char) (s : S) : Outcome × S :=
  if !e.mallocOk then (Outcome.exited, addEv Ev.shellExit (addEv Ev.errMalloc s))
  else
    match spacePass l with
    | (tok, bg, mb) =>
      if exit_check tok then
        (Outcome.exited, addEv Ev.shellExit (wait_for_background_processes s))
      else if pipe_present tok then
        match execute_piped_commands e (split_pipe_cmds mb) s with
        | (_, s') => (Outcome.returned 0, s')
      else if redir_present tok then
        match execute_redirection e tok bg s with
        | (_, s') => (Outcome.returned 0, s')
      else
        match process_normal e tok bg s with
        | (_, s') => (Outcome.returned 0, s')

/-- One iteration of the read loop of `main` (lines 324-337) on a non-empty
line: process it, then print the prompt — unless the shell exited.  Returns
whether the loop continues. -/
def shellStep (e : Env) (l : List Char) (s : S) : Bool × S :=
  match process_one_cmd e l s with
  | (Outcome.exited, s') => (false, s')
  | (Outcome.returned _, s') => (true, addEv Ev.prompt s')

/-! ## The xv6 file-descriptor model for the pipeline child's wiring -/

/-- An open file object a descriptor can refer to. -/
inductive FObj where
  | console : FObj
  | pRead : Nat → FObj
  | pWrite : Nat → FObj
deriving DecidableEq

/-- A per-process descriptor table; index = descriptor number.  xv6's
`NOFILE = 16`. -/
abbrev FdTab := List (Option FObj)

/-- xv6 `fdalloc`: the lowest-numbered free descriptor slot. -/
def lowestFreeGo : FdTab → Nat → Option Nat
  | [], _ => none
  | none :: _, i => some i
  | some _ :: t, i => lowestFreeGo t (i + 1)

/-- xv6 `dup(fd)`: duplicate `fd` onto the lowest free descriptor (there is
no way to choose the target); returns the new descriptor, or `none` (-1) if
`fd` is invalid or the table is full. -/
def dupSys (t : FdTab) (fd : Nat) : FdTab × Option Nat :=
  match t.getD fd none with
  | none => (t, none)
  | some o =>
    match lowestFreeGo t 0 with
    | none => (t, none)
    | some j => (t.set j (some o), some j)

/-- xv6 `close(fd)`: free the slot. -/
def closeSys (t : FdTab) (fd : Nat) : FdTab := t.set fd none

/-- xv6 `pipe(fd)`: allocate the read end, then the write end, at the lowest
free descriptors; `k` identifies the pipe. -/
def pipeSys (t : FdTab) (k : Nat) : Option (FdTab × Nat × Nat) :=
  match lowestFreeGo t 0 with
  | none => none
  | some r =>
    let t1 := t.set r (some (FObj.pRead k))
    match lowestFreeGo t1 0 with
    | none => none
    | some w => some (t1.set w (some (FObj.pWrite k)), r, w)

/-- The child's descriptor operations before `exec` in
`execute_piped_commands` (lines 147-156), exactly as written: if `in != 0`
then `dup(in); close(in)`; if `i < num_commands - 1` then
`dup(fd[1]); close(fd[0]); close(fd[1])`.  No descriptor 0 or 1 is closed
before either `dup`. -/
def childWire (t : FdTab) (inFd : Nat) (i n fd0 fd1 : Nat) : FdTab :=
  let t1 := if inFd ≠ 0 then closeSys (dupSys t inFd).1 inFd else t
  if i < n - 1 then closeSys (closeSys (dupSys t1 fd1).1 fd0) fd1 else t1

/-- The parent's side of the stage loop (lines 124-165) at descriptor level,
collecting each forked child's descriptor table immediately before its
`exec`: per stage, `pipe(fd)`, fork (the child's table is a copy of the
parent's), child wiring as in `childWire`; in the parent
`if (in != 0) close(in); close(fd[1]); in = fd[0]`. -/
def pipedChildTabsGo : Nat → FdTab → Nat → Nat → Nat → List FdTab
  | 0, _, _, _, _ => []
  | fuel + 1, t, inFd, i, n =>
    if i < n then
      match pipeSys t i with
      | none => []
      | some (t1, r, w) =>
        let child := childWire t1 inFd i n r w
        let t2 := if inFd ≠ 0 then closeSys t1 inFd else t1
        let t3 := closeSys t2 w
        child :: pipedChildTabsGo fuel t3 r (i + 1) n
    else []

/-- The shell's initial descriptor table: 0, 1, 2 all refer to the console. -/
def initTab : FdTab :=
  [some FObj.console, some FObj.console, some FObj.console] ++ List.replicate 13 none

/-- The descriptor table of each pipeline child at its `exec`, for an
`n`-stage pipeline started from the standard initial table. -/
def pipedChildTabs (n : Nat) : List FdTab := pipedChildTabsGo n initTab 0 0 n

/-! ## Concrete environments used in witnesses and counterexamples -/

/-- Every system call succeeds. -/
def envAllOk : Env := ⟨true, fun _ => true, fun _ => true, true, true⟩

/-- malloc fails (everything else would succeed). -/
def envNoMalloc : Env := ⟨false, fun _ => true, fun _ => true, true, true⟩

/-- open fails (everything else succeeds). -/
def envNoOpen : Env := ⟨true, fun _ => true, fun _ => true, false, true⟩

/-- Every fallible call fails except malloc. -/
def envAllFail : Env := ⟨true, fun _ => false, fun _ => false, false, false⟩

/-- Sixteen distinct tokens, used to exercise the `MAXTOKENS - 1` cap of the
redirection scan. -/
def preSixteen : List (List Char) :=
  ["t0".toList, "t1".toList, "t2".toList, "t3".toList, "t4".toList, "t5".toList,
   "t6".toList, "t7".toList, "t8".toList, "t9".toList, "ta".toList, "tb".toList,
   "tc".toList, "td".toList, "te".toList, "tf".toList]

/-! ## List helper lemmas -/

theorem takeWhile_congr_mem {α : Type} {f g : α → Bool} :
    ∀ l : List α, (∀ c ∈ l, f c = g c) → l.takeWhile f = l.takeWhile g := by
  intro l
  induction l with
  | nil => intro _; rfl
  | cons a t ih =>
    intro h
    have ha : f a = g a := h a (List.mem_cons_self a t)
    have ht : ∀ c ∈ t, f c = g c := fun c hc => h c (List.mem_cons_of_mem a hc)
    simp only [List.takeWhile_cons, ha, ih ht]

theorem dropWhile_congr_mem {α : Type} {f g : α → Bool} :
    ∀ l : List α, (∀ c ∈ l, f c = g c) → l.dropWhile f = l.dropWhile g := by
  intro l
  induction l with
  | nil => intro _; rfl
  | cons a t ih =>
    intro h
    have ha : f a = g a := h a (List.mem_cons_self a t)
    have ht : ∀ c ∈ t, f c = g c := fun c hc => h c (List.mem_cons_of_mem a hc)
    simp only [List.dropWhile_cons, ha, ih ht]

theorem dropWhile_head_false {α : Type} (p : α → Bool) :
    ∀ (l : List α) (c : α) (t : List α), l.dropWhile p = c :: t → p c = false := by
  intro l
  induction l with
  | nil => intro c t h; cases h
  | cons a r ih =>
    intro c t h
    by_cases ha : p a
    · rw [List.dropWhile_cons_of_pos ha] at h
      exact ih c t h
    · rw [List.dropWhile_cons_of_neg ha] at h
      cases h
      exact Bool.of_not_eq_true ha

theorem takeWhile_eq_self_of_dropWhile_nil {α : Type} (p : α → Bool) (l : List α)
    (h : l.dropWhile p = []) : l.takeWhile p = l := by
  have := List.takeWhile_append_dropWhile (p := p) (l := l)
  rw [h, List.append_nil] at this
  exact this

theorem getLast_app_one {α : Type} (l : List α) (a : α) : (l ++ [a]).getLast? = some a := by
  simp

/-! ## Characterization of one `strtok_custom` call with delimiter `" "`
on a NUL-free suffix -/

theorem contains_space (c : Char) : spaceD.contains c = (c == ' ') := by
  by_cases h : c = ' ' <;> simp [spaceD, List.contains, h]

theorem sep_is_space (c0 c : Char) (t r : List Char)
    (h2 : (c0 :: t).dropWhile (fun x => !(x == ' ')) = c :: r) : c = ' ' := by
  have h := dropWhile_head_false (fun x => !(x == ' ')) (c0 :: t) c r h2
  simp at h
  exact h

theorem strtok_step_space_none (s : List Char)
    (h : s.dropWhile (fun c => c == ' ') = []) : strtok_step spaceD s = none := by
  simp only [strtok_step, contains_space, h, List.takeWhile_nil, List.dropWhile_nil,
    List.isEmpty_nil, if_true]

theorem nul_beq_false {c : Char} (h : c ≠ nulC) : (c == nulC) = false :=
  beq_eq_false_iff_ne.mpr h

theorem tok_pred_eq (s1 : List Char) (hn : nulC ∉ s1) :
    (∀ c ∈ s1, (!(c == ' ') && !(c == nulC)) = !(c == ' ')) := by
  intro c hc
  have hcn : c ≠ nulC := fun h => hn (h ▸ hc)
  rw [nul_beq_false hcn]
  simp

theorem strtok_step_space_end (s : List Char) (hn : nulC ∉ s) (c0 : Char) (t : List Char)
    (h1 : s.dropWhile (fun c => c == ' ') = c0 :: t)
    (h2 : (c0 :: t).dropWhile (fun c => !(c == ' ')) = []) :
    strtok_step spaceD s =
      some (s.takeWhile (fun c => c == ' ') ++ (c0 :: t), c0 :: t, false, []) := by
  have hdec := List.takeWhile_append_dropWhile (p := fun c => c == ' ') (l := s)
  rw [h1] at hdec
  have hsub : nulC ∉ c0 :: t := by
    intro hc
    exact hn (by rw [← hdec]; exact List.mem_append_right _ hc)
  have hcongr := tok_pred_eq (c0 :: t) hsub
  have htw : (c0 :: t).takeWhile (fun c => !(c == ' ') && !(c == nulC)) = c0 :: t := by
    rw [takeWhile_congr_mem (c0 :: t) hcongr]
    exact takeWhile_eq_self_of_dropWhile_nil _ _ h2
  have hdw : (c0 :: t).dropWhile (fun c => !(c == ' ') && !(c == nulC)) = [] := by
    rw [dropWhile_congr_mem (c0 :: t) hcongr]
    exact h2
  simp only [strtok_step, contains_space, h1, htw, hdw, List.isEmpty_cons, if_false,
    Bool.false_eq_true]

theorem strtok_step_space_mid (s : List Char) (hn : nulC ∉ s) (c0 c : Char) (t r : List Char)
    (h1 : s.dropWhile (fun x => x == ' ') = c0 :: t)
    (h2 : (c0 :: t).dropWhile (fun x => !(x == ' ')) = c :: r) :
    strtok_step spaceD s =
      some (s.takeWhile (fun x => x == ' ') ++ (c0 :: t).takeWhile (fun x => !(x == ' ')) ++ [nulC],
            (c0 :: t).takeWhile (fun x => !(x == ' ')), true, r) := by
  have hdec := List.takeWhile_append_dropWhile (p := fun x => x == ' ') (l := s)
  rw [h1] at hdec
  have hsub : nulC ∉ c0 :: t := by
    intro hc
    exact hn (by rw [← hdec]; exact List.mem_append_right _ hc)
  have hcongr := tok_pred_eq (c0 :: t) hsub
  have hc0 : (c0 == ' ') = false := dropWhile_head_false _ s c0 t h1
  have hcsp : c = ' ' := sep_is_space c0 c t r h2
  have hcnul : (c == nulC) = false := by
    rw [hcsp]
    decide
  have htw : (c0 :: t).takeWhile (fun x => !(x == ' ') && !(x == nulC)) =
      (c0 :: t).takeWhile (fun x => !(x == ' ')) :=
    takeWhile_congr_mem (c0 :: t) hcongr
  have hdw : (c0 :: t).dropWhile (fun x => !(x == ' ') && !(x == nulC)) = c :: r := by
    rw [dropWhile_congr_mem (c0 :: t) hcongr]
    exact h2
  have hne : ((c0 :: t).takeWhile (fun x => !(x == ' '))).isEmpty = false := by
    rw [List.takeWhile_cons]
    simp [hc0]
  simp only [strtok_step, contains_space, h1, htw, hdw, hne, if_false, hcnul,
    Bool.false_eq_true, List.append_assoc]

/-! ## Lemmas about the whitespace-split reference -/

theorem wsSplit_nil_of (s : List Char) (h : s.dropWhile (fun c => c == ' ') = []) :
    wsSplit s = [] := by
  simp only [wsSplit, wsTokens, h, List.isEmpty_nil, if_true]

theorem wsTokens_fuel : ∀ (f : Nat) (s : List Char), s.length < f → wsTokens f s = wsSplit s := by
  intro f
  induction f using Nat.strong_induction_on with
  | _ f ih =>
    intro s hs
    cases f with
    | zero => exact absurd hs (Nat.not_lt_zero _)
    | succ f' =>
      cases h1 : s.dropWhile (fun c => c == ' ') with
      | nil =>
        rw [wsSplit_nil_of s h1]
        simp only [wsTokens, h1, List.isEmpty_nil, if_true]
      | cons c0 t =>
        have hdec := List.takeWhile_append_dropWhile (p := fun c => c == ' ') (l := s)
        rw [h1] at hdec
        have e1 : (s.takeWhile (fun c => c == ' ')).length + (c0 :: t).length = s.length := by
          rw [← List.length_append, hdec]
        have hc0 : (c0 == ' ') = false := dropWhile_head_false _ s c0 t h1
        have e2 : ((c0 :: t).takeWhile (fun c => !(c == ' '))).length +
            ((c0 :: t).dropWhile (fun c => !(c == ' '))).length = (c0 :: t).length := by
          rw [← List.length_append,
            List.takeWhile_append_dropWhile (p := fun c => !(c == ' ')) (l := c0 :: t)]
        have hw : 1 ≤ ((c0 :: t).takeWhile (fun c => !(c == ' '))).length := by
          rw [List.takeWhile_cons]
          simp [hc0]
        have hr2 : ((c0 :: t).dropWhile (fun c => !(c == ' '))).length < s.length := by
          simp only [List.length_cons] at e1 e2
          omega
        have hr2f : ((c0 :: t).dropWhile (fun c => !(c == ' '))).length < f' := by
          simp only [List.length_cons] at e1 e2
          omega
      
        conv_lhs => rw [wsTokens]
        conv_rhs => rw [wsSplit, wsTokens]
        simp only [h1, List.isEmpty_cons, Bool.false_eq_true, if_false]
        rw [ih f' (Nat.lt_succ_self f') _ hr2f,
          ih s.length hs _ hr2]

theorem wsSplit_cons_space (r : List Char) : wsSplit (' ' :: r) = wsSplit r := by
  have key : ∀ m : Nat, wsTokens (m + 1) (' ' :: r) = wsTokens (m + 1) r := by
    intro m
    conv_lhs => rw [wsTokens]
    conv_rhs => rw [wsTokens]
    simp only [List.dropWhile_cons, show ((' ' : Char) == ' ') = true from rfl, if_true]
  have hl : wsSplit (' ' :: r) = wsTokens (r.length + 1 + 1) (' ' :: r) := rfl
  rw [hl, key (r.length + 1), wsTokens_fuel (r.length + 1 + 1) r (by omega)]

theorem wsSplit_end (s : List Char) (c0 : Char) (t : List Char)
    (h1 : s.dropWhile (fun c => c == ' ') = c0 :: t)
    (h2 : (c0 :: t).dropWhile (fun c => !(c == ' ')) = []) :
    wsSplit s = [c0 :: t] := by
  have htw : (c0 :: t).takeWhile (fun c => !(c == ' ')) = c0 :: t :=
    takeWhile_eq_self_of_dropWhile_nil _ _ h2
  have hlen : 1 ≤ s.length := by
    have hdec := List.takeWhile_append_dropWhile (p := fun c => c == ' ') (l := s)
    rw [h1] at hdec
    have := congrArg List.length hdec
    simp only [List.length_append, List.length_cons] at this
    omega
  conv_lhs => rw [wsSplit, wsTokens]
  simp only [h1, List.isEmpty_cons, Bool.false_eq_true, if_false, htw, h2]
  cases hl : s.length with
  | zero => omega
  | succ n => simp [wsTokens]

theorem wsSplit_mid (s : List Char) (c0 c : Char) (t r : List Char)
    (h1 : s.dropWhile (fun x => x == ' ') = c0 :: t)
    (h2 : (c0 :: t).dropWhile (fun x => !(x == ' ')) = c :: r) :
    wsSplit s = (c0 :: t).takeWhile (fun x => !(x == ' ')) :: wsSplit r := by
  have hdec := List.takeWhile_append_dropWhile (p := fun x => x == ' ') (l := s)
  rw [h1] at hdec
  have e1 : (s.takeWhile (fun x => x == ' ')).length + (c0 :: t).length = s.length := by
    rw [← List.length_append, hdec]
  have hc0 : (c0 == ' ') = false := dropWhile_head_false _ s c0 t h1
  have e2 : ((c0 :: t).takeWhile (fun x => !(x == ' '))).length + (c :: r).length =
      (c0 :: t).length := by
    rw [← List.length_append, ← h2,
      List.takeWhile_append_dropWhile (p := fun x => !(x == ' ')) (l := c0 :: t)]
  have hw : 1 ≤ ((c0 :: t).takeWhile (fun x => !(x == ' '))).length := by
    rw [List.takeWhile_cons]
    simp [hc0]
  have hcr : (c :: r).length < s.length := by
    simp only [List.length_cons] at e1 e2 ⊢
    omega
  have hcsp : c = ' ' := sep_is_space c0 c t r h2
  conv_lhs => rw [wsSplit, wsTokens]
  simp only [h1, List.isEmpty_cons, Bool.false_eq_true, if_false, h2]
  rw [wsTokens_fuel s.length (c :: r) hcr, hcsp, wsSplit_cons_space]

/-! ## Correspondence: the whitespace pass computes the whitespace split
(with `&` handling) -/


theorem spaceLoop_spec : ∀ (f : Nat) (s : List Char), nulC ∉ s → s.length < f →
    (spaceLoop f s).1 = (wsSplit s).takeWhile (fun t => !(t == ampTok)) ∧
    (spaceLoop f s).2.1 = (wsSplit s).any (fun t => t == ampTok) := by
  intro f
  induction f using Nat.strong_induction_on with
  | _ f ih =>
    intro s hn hs
    cases f with
    | zero => exact absurd hs (Nat.not_lt_zero _)
    | succ f' =>
      cases h1 : s.dropWhile (fun c => c == ' ') with
      | nil =>
        rw [wsSplit_nil_of s h1]
        simp [spaceLoop, strtok_step_space_none s h1]
      | cons c0 t =>
        cases h2 : (c0 :: t).dropWhile (fun c => !(c == ' ')) with
        | nil =>
          rw [wsSplit_end s c0 t h1 h2]
          have hstep := strtok_step_space_end s hn c0 t h1 h2
          generalize hwd : c0 :: t = w at hstep ⊢
          simp only [spaceLoop, hstep]
          by_cases hamp : (w == ampTok) = true
          · simp only [hamp, if_true, List.takeWhile_cons, List.any_cons,
              Bool.not_true, Bool.false_eq_true, if_false, List.any_nil, Bool.or_false]
            exact ⟨trivial, trivial⟩
          · have hampf : (w == ampTok) = false := Bool.of_not_eq_true hamp
            simp only [hampf, Bool.false_eq_true, if_false, List.takeWhile_cons,
              List.any_cons, Bool.not_false, if_true, List.takeWhile_nil, List.any_nil,
              Bool.or_false]
            exact ⟨trivial, trivial⟩
        | cons c r =>
          rw [wsSplit_mid s c0 c t r h1 h2]
          have hstep := strtok_step_space_mid s hn c0 c t r h1 h2
          have hdec := List.takeWhile_append_dropWhile (p := fun x => x == ' ') (l := s)
          rw [h1] at hdec
          have hdec2 := List.takeWhile_append_dropWhile (p := fun x => !(x == ' '))
            (l := c0 :: t)
          rw [h2] at hdec2
          have hnr : nulC ∉ r := by
            intro hc
            apply hn
            rw [← hdec, ← hdec2]
            exact List.mem_append_right _
              (List.mem_append_right _ (List.mem_cons_of_mem c hc))
          have e1 : (s.takeWhile (fun x => x == ' ')).length + (c0 :: t).length =
              s.length := by
            rw [← List.length_append, hdec]
          have hc0 : (c0 == ' ') = false := dropWhile_head_false _ s c0 t h1
          have e2 : ((c0 :: t).takeWhile (fun x => !(x == ' '))).length + (c :: r).length =
              (c0 :: t).length := by
            rw [← List.length_append, hdec2]
          have hw : 1 ≤ ((c0 :: t).takeWhile (fun x => !(x == ' '))).length := by
            rw [List.takeWhile_cons]
            simp [hc0]
          have hrf : r.length < f' := by
            simp only [List.length_cons] at e1 e2
            omega
          generalize hwd : (c0 :: t).takeWhile (fun x => !(x == ' ')) = w at hstep ⊢
          simp only [spaceLoop, hstep]
          by_cases hamp : (w == ampTok) = true
          · simp only [hamp, if_true, List.takeWhile_cons, List.any_cons, Bool.not_true,
              Bool.false_eq_true, if_false]
            exact ⟨trivial, by simp⟩
          · have hampf : (w == ampTok) = false := Bool.of_not_eq_true hamp
            obtain ⟨ih1, ih2⟩ := ih f' (Nat.lt_succ_self f') r hnr hrf
            rcases hsp : spaceLoop f' r with ⟨ts, bg, rest'⟩
            rw [hsp] at ih1 ih2
            simp only [hampf, Bool.false_eq_true, if_false, if_true, hsp,
              List.takeWhile_cons, List.any_cons, Bool.not_false]
            refine ⟨congrArg (List.cons w) ih1, ?_⟩
            rw [Bool.false_or]
            exact ih2

theorem spacePass_spec (l : List Char) (hn : nulC ∉ l) :
    (spacePass l).1 =
      (wsSplit l).take 1 ++ ((wsSplit l).drop 1).takeWhile (fun t => !(t == ampTok)) ∧
    (spacePass l).2.1 = ((wsSplit l).drop 1).any (fun t => t == ampTok) := by
  cases h1 : l.dropWhile (fun c => c == ' ') with
  | nil =>
    rw [wsSplit_nil_of l h1]
    simp [spacePass, strtok_step_space_none l h1]
  | cons c0 t =>
    cases h2 : (c0 :: t).dropWhile (fun c => !(c == ' ')) with
    | nil =>
      rw [wsSplit_end l c0 t h1 h2]
      have hstep := strtok_step_space_end l hn c0 t h1 h2
      generalize hwd : c0 :: t = w at hstep ⊢
      simp only [spacePass, hstep, Bool.false_eq_true, if_false, List.take_succ_cons,
        List.take_zero, List.drop_succ_cons, List.drop_zero, List.takeWhile_nil,
        List.any_nil, List.take_nil, List.singleton_append]
      constructor <;> trivial
    | cons c r =>
      rw [wsSplit_mid l c0 c t r h1 h2]
      have hstep := strtok_step_space_mid l hn c0 c t r h1 h2
      have hdec := List.takeWhile_append_dropWhile (p := fun x => x == ' ') (l := l)
      rw [h1] at hdec
      have hdec2 := List.takeWhile_append_dropWhile (p := fun x => !(x == ' '))
        (l := c0 :: t)
      rw [h2] at hdec2
      have hnr : nulC ∉ r := by
        intro hc
        apply hn
        rw [← hdec, ← hdec2]
        exact List.mem_append_right _
          (List.mem_append_right _ (List.mem_cons_of_mem c hc))
      have e1 : (l.takeWhile (fun x => x == ' ')).length + (c0 :: t).length = l.length := by
        rw [← List.length_append, hdec]
      have e2 : ((c0 :: t).takeWhile (fun x => !(x == ' '))).length + (c :: r).length =
          (c0 :: t).length := by
        rw [← List.length_append, hdec2]
      have hrf : r.length < l.length + 1 := by
        simp only [List.length_cons] at e1 e2
        omega
      obtain ⟨ih1, ih2⟩ := spaceLoop_spec (l.length + 1) r hnr hrf
      rcases hsp : spaceLoop (l.length + 1) r with ⟨ts, bg, rest'⟩
      rw [hsp] at ih1 ih2
      generalize hwd : (c0 :: t).takeWhile (fun x => !(x == ' ')) = w at hstep ⊢
      simp only [spacePass, hstep, if_true, hsp, List.take_succ_cons, List.take_zero,
        List.drop_succ_cons, List.drop_zero, List.singleton_append]
      exact ⟨congrArg (List.cons w) ih1, ih2⟩

theorem spacePass_head (l : List Char) (hn : nulC ∉ l) :
    (spacePass l).1.head? = (wsSplit l).head? := by
  obtain ⟨h1, _⟩ := spacePass_spec l hn
  rw [h1]
  cases wsSplit l with
  | nil => rfl
  | cons a t => rfl

/-! ## Executor-level helper lemmas -/

theorem drain_spec : ∀ (c fc pc : Nat) (tr : List Ev),
    drainGo (c + 1) ⟨c, fc, pc, tr⟩ =
      ⟨0, fc, pc, tr ++ (List.replicate c Ev.waitOk ++ [Ev.waitFail])⟩ := by
  intro c
  induction c with
  | zero =>
    intro fc pc tr
    simp [drainGo, waitCall, addEv]
  | succ c ih =>
    intro fc pc tr
    have h1 : waitCall ⟨c + 1, fc, pc, tr⟩ = (1, ⟨c, fc, pc, tr ++ [Ev.waitOk]⟩) := by
      simp [waitCall]
    rw [drainGo, h1]
    dsimp only
    rw [if_neg (by norm_num : ¬ (1 : Int) < 0)]
    rw [ih fc pc (tr ++ [Ev.waitOk])]
    simp [List.replicate_succ, List.append_assoc]

theorem process_normal_bg (e : Env) (tok : List (List Char)) (c fc pc : Nat)
    (hf : e.forkOk fc = true) :
    process_normal e tok true ⟨c, fc, pc, []⟩ =
      (0, ⟨c + 1, fc + 1, pc,
        [Ev.forked, Ev.childExec tok false e.execOk, Ev.bgReport]⟩) := by
  have hF : forkCall e ⟨c, fc, pc, []⟩ = (true, ⟨c + 1, fc + 1, pc, [Ev.forked]⟩) := by
    simp [forkCall, hf]
  simp only [process_normal, hF, Bool.not_true, Bool.false_eq_true, if_false]
  simp [addEv]

theorem redir_scan_missing : ∀ (pre : List (List Char)) (i : Nat),
    gtTok ∉ pre → i + pre.length ≤ 15 →
    redirScanGo (pre ++ [gtTok]) i = (pre, none) := by
  intro pre
  induction pre with
  | nil =>
    intro i _ _
    by_cases h : i < 15
    · simp [redirScanGo, h]
    · simp [redirScanGo, h]
  | cons p ps ih =>
    intro i hni hlen
    have hi : i < 15 := by
      simp only [List.length_cons] at hlen
      omega
    have hp : (p == gtTok) = false :=
      beq_eq_false_iff_ne.mpr (fun h => hni (h ▸ List.mem_cons_self p ps))
    have hni' : gtTok ∉ ps := fun h => hni (List.mem_cons_of_mem p h)
    have hlen' : (i + 1) + ps.length ≤ 15 := by
      simp only [List.length_cons] at hlen
      omega
    simp only [List.cons_append, redirScanGo, hi, if_true, hp, Bool.false_eq_true,
      if_false, List.append_eq, ih (i + 1) hni' hlen']

theorem redir_scan_found : ∀ (pre : List (List Char)) (i : Nat) (f : List Char)
    (rest : List (List Char)), gtTok ∉ pre → i + pre.length < 15 →
    redirScanGo (pre ++ gtTok :: f :: rest) i = (pre, some f) := by
  intro pre
  induction pre with
  | nil =>
    intro i f rest _ hlen
    have hi : i < 15 := by omega
    simp [redirScanGo, hi]
  | cons p ps ih =>
    intro i f rest hni hlen
    have hi : i < 15 := by
      simp only [List.length_cons] at hlen
      omega
    have hp : (p == gtTok) = false :=
      beq_eq_false_iff_ne.mpr (fun h => hni (h ▸ List.mem_cons_self p ps))
    have hni' : gtTok ∉ ps := fun h => hni (List.mem_cons_of_mem p h)
    have hlen' : (i + 1) + ps.length < 15 := by
      simp only [List.length_cons] at hlen
      omega
    simp only [List.cons_append, redirScanGo, hi, if_true, hp, Bool.false_eq_true,
      if_false, List.append_eq, ih (i + 1) f rest hni' hlen']

theorem process_one_cmd_returns (e : Env) (l : List Char) (s : S)
    (hm : e.mallocOk = true) (hx : exit_check (spacePass l).1 = false) :
    ∃ s', process_one_cmd e l s = (Outcome.returned 0, s') := by
  rcases hsp : spacePass l with ⟨tok, bg, mb⟩
  rw [hsp] at hx
  dsimp only at hx
  rw [process_one_cmd, hm, hsp]
  simp only [Bool.not_true, Bool.false_eq_true, if_false, hx]
  by_cases hp : pipe_present tok = true
  · simp only [hp, if_true]
    rcases hE : execute_piped_commands e (split_pipe_cmds mb) s with ⟨code, s'⟩
    exact ⟨s', rfl⟩
  · have hp' : pipe_present tok = false := Bool.of_not_eq_true hp
    simp only [hp', Bool.false_eq_true, if_false]
    by_cases hr : redir_present tok = true
    · simp only [hr, if_true]
      rcases hE : execute_redirection e tok bg s with ⟨code, s'⟩
      exact ⟨s', rfl⟩
    · have hr' : redir_present tok = false := Bool.of_not_eq_true hr
      simp only [hr', Bool.false_eq_true, if_false]
      rcases hE : process_normal e tok bg s with ⟨code, s'⟩
      exact ⟨s', rfl⟩

/-! ## Claim theorems -/

/-- C1: the claim says a line whose whitespace tokens contain `|` is split
into the `|`-separated command-strings of the original line, with
`cmd1 | cmd2 | cmd3` yielding exactly 3 stages.  Evaluating the code's path
at that line: the whitespace pass has already overwritten the space after
`cmd1` with NUL, so the `|`-re-scan of the buffer stops there and the code
produces a single stage `["cmd1"]`, while the specified split of the original
line has the 3 stages `"cmd1 "`, `"cmd2 "`, `"cmd3"`. -/
theorem c1_pipe_split_collapses_to_one_stage :
    line_pipe_stages ("cmd1 | cmd2 | cmd3".toList) = some ["cmd1".toList] ∧
    pipeSplitSpec ("cmd1 | cmd2 | cmd3".toList) =
      ["cmd1 ".toList, "cmd2 ".toList, "cmd3".toList] := by decide

/-- C2: the claim says a pipeline of N commands allocates exactly N-1 pipes,
forks N children and waits N times.  Evaluating `execute_piped_commands` on a
3-command pipeline with every syscall succeeding: the code calls `pipe`
unconditionally in every loop iteration (line 136), so it creates 3 pipes —
not 2 — while forking 3 children and waiting 3 times. -/
theorem c2_pipeline_creates_n_pipes_not_n_minus_one :
    ((execute_piped_commands envAllOk ["cmd1".toList, "cmd2".toList, "cmd3".toList]
        ⟨0, 0, 0, []⟩).2.trace.count Ev.pipeCreated = 3) ∧
    ((execute_piped_commands envAllOk ["cmd1".toList, "cmd2".toList, "cmd3".toList]
        ⟨0, 0, 0, []⟩).2.trace.count Ev.forked = 3) ∧
    ((execute_piped_commands envAllOk ["cmd1".toList, "cmd2".toList, "cmd3".toList]
        ⟨0, 0, 0, []⟩).2.trace.count Ev.waitOk = 3) := by decide

/-- C3: the claim says each pipeline child ends up with the previous pipe's
read end duplicated onto standard input (when not first), the current pipe's
write end duplicated onto standard output (when not last), and every
unneeded descriptor closed.  Computing the descriptor tables of the two
children of a 2-stage pipeline from the standard initial table: xv6 `dup`
returns the lowest free descriptor and the code never closes 0 or 1 first,
so the first child keeps descriptor 1 on the console (the write end lands at
descriptor 5), and the second child keeps descriptor 0 on the console (the
read end lands at descriptor 6) while also holding both ends of the
needlessly created second pipe open. -/
theorem c3_pipeline_child_fds_not_wired_to_stdio :
    (((pipedChildTabs 2).getD 0 []).getD 1 none = some FObj.console) ∧
    (((pipedChildTabs 2).getD 0 []).getD 5 none = some (FObj.pWrite 0)) ∧
    (((pipedChildTabs 2).getD 1 []).getD 0 none = some FObj.console) ∧
    (((pipedChildTabs 2).getD 1 []).getD 6 none = some (FObj.pRead 0)) ∧
    (((pipedChildTabs 2).getD 1 []).getD 4 none = some (FObj.pRead 1)) ∧
    (((pipedChildTabs 2).getD 1 []).getD 5 none = some (FObj.pWrite 1)) := by decide

/-- C4 counterexample: the claim includes allocation failure among the
failures that do not terminate the read loop, but `process_one_cmd` calls
`exit()` when `malloc` fails (lines 246-249): on the non-exit line `ls` with
a failing allocator the shell process exits. -/
theorem c4_cx_malloc_failure_exits_shell :
    (process_one_cmd envNoMalloc ("ls".toList) ⟨0, 0, 0, []⟩).1 = Outcome.exited ∧
    (wsSplit ("ls".toList)).head? ≠ some exitTok := by decide

/-- C4 (amended): for every line whose first token is not `exit`, and under
any fork/pipe/open/exec failure pattern — as long as the allocation succeeds —
processing the line returns to the read loop and the next prompt is printed
(it is the last event of the step). -/
theorem c4_noalloc_failures_nonfatal (l : List Char) (e : Env) (c fc pc : Nat)
    (hn : nulC ∉ l) (hm : e.mallocOk = true) (hx : (wsSplit l).head? ≠ some exitTok) :
    (shellStep e l ⟨c, fc, pc, []⟩).1 = true ∧
    ((shellStep e l ⟨c, fc, pc, []⟩).2.trace).getLast? = some Ev.prompt := by
  have hx' : exit_check (spacePass l).1 = false := by
    unfold exit_check
    rw [spacePass_head l hn]
    exact beq_eq_false_iff_ne.mpr hx
  obtain ⟨s', hkey⟩ := process_one_cmd_returns e l ⟨c, fc, pc, []⟩ hm hx'
  rw [shellStep, hkey]
  exact ⟨rfl, getLast_app_one _ _⟩

/-- C4 witness: the line `ls` in an environment where every fork, pipe and
open call fails still leaves the loop running with a trailing prompt. -/
theorem c4_noalloc_failures_nonfatal_w :
    (shellStep envAllFail ("ls".toList) ⟨0, 0, 0, []⟩).1 = true ∧
    ((shellStep envAllFail ("ls".toList) ⟨0, 0, 0, []⟩).2.trace).getLast? =
      some Ev.prompt :=
  c4_noalloc_failures_nonfatal ("ls".toList) envAllFail 0 0 0 (by decide) (by decide)
    (by decide)

/-- C5: for every line whose first whitespace token is `exit` (whatever the
remaining tokens), processing the line waits once per outstanding child, then
observes the failing wait, and only then exits the shell — the final state
has zero children and the trace is exactly the waits followed by the shell's
exit, with no pipe, redirection or exec activity. -/
theorem c5_exit_drains_all_children_then_exits (l : List Char) (e : Env) (c fc pc : Nat)
    (hn : nulC ∉ l) (hm : e.mallocOk = true) (hh : (wsSplit l).head? = some exitTok) :
    process_one_cmd e l ⟨c, fc, pc, []⟩ =
      (Outcome.exited,
        ⟨0, fc, pc, List.replicate c Ev.waitOk ++ [Ev.waitFail, Ev.shellExit]⟩) := by
  have hx : exit_check (spacePass l).1 = true := by
    unfold exit_check
    rw [spacePass_head l hn, hh]
    simp
  rcases hsp : spacePass l with ⟨tok, bg, mb⟩
  rw [hsp] at hx
  dsimp only at hx
  rw [process_one_cmd, hm, hsp]
  simp only [Bool.not_true, Bool.false_eq_true, if_false, hx, if_true]
  rw [wait_for_background_processes]
  dsimp only
  rw [drain_spec c fc pc []]
  simp [addEv, List.append_assoc]

/-- C5 witness: the line `exit now` with 2 outstanding children reaps both,
sees the failing wait, and exits. -/
theorem c5_exit_drains_all_children_then_exits_w :
    process_one_cmd envAllOk ("exit now".toList) ⟨2, 0, 0, []⟩ =
      (Outcome.exited,
        ⟨0, 0, 0, List.replicate 2 Ev.waitOk ++ [Ev.waitFail, Ev.shellExit]⟩) :=
  c5_exit_drains_all_children_then_exits ("exit now".toList) envAllOk 2 0 0
    (by decide) (by decide) (by decide)

/-- C6 counterexample: the claim says every line whose last non-empty token
is `&` gets background=true with the marker removed, but the `&` check never
looks at the first token (lines 252-262): on the line `&` the parser yields
background=false and keeps the `&` as the sole argument. -/
theorem c6_cx_lone_amp_not_background :
    (wsSplit ("&".toList)).getLast? = some ampTok ∧
    (spacePass ("&".toList)).2.1 = false ∧
    (spacePass ("&".toList)).1 = [ampTok] := by decide

/-- C6 (amended): for every input line, the parser records background=true
exactly when some whitespace token after the first equals `&`, and the
argument sequence is the whitespace split truncated at the first such `&`
(so when the only `&` is the final token and not the first, it equals the
whitespace split without the marker); when background is set the plain
executor forks, the child execs the arguments, and the parent reports the
child and returns without waiting. -/
theorem c6_amp_after_first_token_backgrounds (l : List Char) (e : Env) (c fc pc : Nat)
    (hn : nulC ∉ l) (hf : e.forkOk fc = true) :
    (spacePass l).1 =
      (wsSplit l).take 1 ++ ((wsSplit l).drop 1).takeWhile (fun t => !(t == ampTok)) ∧
    (spacePass l).2.1 = ((wsSplit l).drop 1).any (fun t => t == ampTok) ∧
    ((spacePass l).2.1 = true →
      process_normal e (spacePass l).1 true ⟨c, fc, pc, []⟩ =
        (0, ⟨c + 1, fc + 1, pc,
          [Ev.forked, Ev.childExec (spacePass l).1 false e.execOk, Ev.bgReport]⟩)) := by
  obtain ⟨h1, h2⟩ := spacePass_spec l hn
  exact ⟨h1, h2, fun _ => process_normal_bg e (spacePass l).1 c fc pc hf⟩

/-- C6 witness: the line `echo hi &` parses to `["echo","hi"]` with
background=true, and the background execution trace is fork, child exec,
pid report — no wait. -/
theorem c6_amp_after_first_token_backgrounds_w :
    (spacePass ("echo hi &".toList)).1 =
      (wsSplit ("echo hi &".toList)).take 1 ++
        ((wsSplit ("echo hi &".toList)).drop 1).takeWhile (fun t => !(t == ampTok)) ∧
    (spacePass ("echo hi &".toList)).2.1 =
      ((wsSplit ("echo hi &".toList)).drop 1).any (fun t => t == ampTok) ∧
    ((spacePass ("echo hi &".toList)).2.1 = true →
      process_normal envAllOk (spacePass ("echo hi &".toList)).1 true ⟨0, 0, 0, []⟩ =
        (0, ⟨1, 1, 0,
          [Ev.forked, Ev.childExec (spacePass ("echo hi &".toList)).1 false true,
           Ev.bgReport]⟩)) :=
  c6_amp_after_first_token_backgrounds ("echo hi &".toList) envAllOk 0 0 0
    (by decide) (by decide)

/-- C7: when the command has a redirection target and the open fails, the
redirection executor reports the failure naming the target and returns `-1`
with no fork performed and the child count unchanged. -/
theorem c7_open_failure_reports_and_skips_fork (tok : List (List Char)) (f : List Char)
    (bg : Bool) (e : Env) (c fc pc : Nat)
    (ho : (redirScan tok).2 = some f) (he : e.openOk = false) :
    execute_redirection e tok bg ⟨c, fc, pc, []⟩ = (-1, ⟨c, fc, pc, [Ev.errOpen f]⟩) := by
  rcases hrs : redirScan tok with ⟨as, o⟩
  rw [hrs] at ho
  dsimp only at ho
  subst ho
  simp only [execute_redirection, hrs, he, Bool.false_eq_true, if_false]
  simp [addEv]

/-- C7 witness: `ls > out` with a failing open reports the target and
returns without forking. -/
theorem c7_open_failure_reports_and_skips_fork_w :
    execute_redirection envNoOpen ["ls".toList, ">".toList, "out".toList] false
        ⟨0, 0, 0, []⟩ =
      (-1, ⟨0, 0, 0, [Ev.errOpen ("out".toList)]⟩) :=
  c7_open_failure_reports_and_skips_fork ["ls".toList, ">".toList, "out".toList]
    ("out".toList) false envNoOpen 0 0 0 (by decide) (by decide)

/-- C8 counterexample: the claim says the target is opened with exactly the
flags create-if-missing, write-only and truncate; the code passes
`O_CREATE | O_WRONLY` (line 196) — the mode actually used carries no
truncate flag. -/
theorem c8_cx_open_mode_has_no_trunc :
    (execute_redirection envAllOk ["ls".toList, ">".toList, "out.txt".toList] false
        ⟨0, 0, 0, []⟩).2.trace.head? = some (Ev.opened ("out.txt".toList) xvshMode) ∧
    xvshMode.trunc = false := by decide

/-- C8 (amended): for every command whose first `>` token appears among the
first 15 tokens, the token after `>` becomes the target, the argument vector
is truncated at `>`, and the target is opened with exactly the mode
create-if-missing and write-only (no truncate flag). -/
theorem c8_redirection_target_truncation_and_mode (pre : List (List Char)) (f : List Char)
    (rest : List (List Char)) (bg : Bool) (e : Env) (c fc pc : Nat)
    (hg : gtTok ∉ pre) (hl : pre.length < 15) (ho : e.openOk = true)
    (hf : e.forkOk fc = true) :
    redirScan (pre ++ gtTok :: f :: rest) = (pre, some f) ∧
    execute_redirection e (pre ++ gtTok :: f :: rest) bg ⟨c, fc, pc, []⟩ =
      (0, ⟨if bg then c + 1 else c, fc + 1, pc,
        [Ev.opened f xvshMode, Ev.forked, Ev.childExec pre true e.execOk] ++
          (if bg then [Ev.bgReport] else [Ev.waitOk])⟩) := by
  have hscan : redirScan (pre ++ gtTok :: f :: rest) = (pre, some f) := by
    rw [redirScan]
    exact redir_scan_found pre 0 f rest hg (by omega)
  refine ⟨hscan, ?_⟩
  simp only [execute_redirection, hscan, ho, if_true]
  have hs0 : addEv (Ev.opened f xvshMode) (⟨c, fc, pc, []⟩ : S) =
      ⟨c, fc, pc, [Ev.opened f xvshMode]⟩ := by simp [addEv]
  rw [hs0]
  have hF : forkCall e ⟨c, fc, pc, [Ev.opened f xvshMode]⟩ =
      (true, ⟨c + 1, fc + 1, pc, [Ev.opened f xvshMode, Ev.forked]⟩) := by
    simp [forkCall, hf]
  simp only [redirExec, hF, Bool.not_true, Bool.false_eq_true, if_false]
  cases bg with
  | false => simp [addEv, waitCall]
  | true => simp [addEv]

/-- C8 witness: `ls > out.txt` scans to arguments `["ls"]` with target
`out.txt`, opened with the create and write-only mode. -/
theorem c8_redirection_target_truncation_and_mode_w :
    redirScan ["ls".toList, gtTok, "out.txt".toList] =
      (["ls".toList], some ("out.txt".toList)) ∧
    execute_redirection envAllOk ["ls".toList, gtTok, "out.txt".toList] false
        ⟨0, 0, 0, []⟩ =
      (0, ⟨0, 1, 0, [Ev.opened ("out.txt".toList) xvshMode, Ev.forked,
        Ev.childExec ["ls".toList] true true, Ev.waitOk]⟩) :=
  c8_redirection_target_truncation_and_mode ["ls".toList] ("out.txt".toList) [] false
    envAllOk 0 0 0 (by decide) (by decide) (by decide) (by decide)

/-- C9 counterexample: the claim says the command with a trailing `>` forks
and execs the tokens preceding `>`, but with 16 tokens before `>` the scan
stops at the `MAXTOKENS - 1` cap and the child execs only the first 15. -/
theorem c9_cx_sixteen_tokens_before_gt :
    (execute_redirection envAllOk (preSixteen ++ [gtTok]) false ⟨0, 0, 0, []⟩).2.trace =
      [Ev.forked, Ev.childExec (preSixteen.take 15) false true, Ev.waitOk] ∧
    preSixteen.take 15 ≠ preSixteen := by decide

/-- C9 (amended): for every argument vector ending in `>` with at most 15
preceding tokens, the scan takes the null sentinel as target, no file is
opened and no error raised, and the executor forks and execs exactly the
preceding tokens with the child performing no descriptor duplication
(standard output unchanged). -/
theorem c9_missing_target_runs_without_redirect (pre : List (List Char)) (bg : Bool)
    (e : Env) (c fc pc : Nat) (hl : pre.length ≤ 15) (hg : gtTok ∉ pre)
    (hf : e.forkOk fc = true) :
    redirScan (pre ++ [gtTok]) = (pre, none) ∧
    execute_redirection e (pre ++ [gtTok]) bg ⟨c, fc, pc, []⟩ =
      (0, ⟨if bg then c + 1 else c, fc + 1, pc,
        [Ev.forked, Ev.childExec pre false e.execOk] ++
          (if bg then [Ev.bgReport] else [Ev.waitOk])⟩) := by
  have hscan : redirScan (pre ++ [gtTok]) = (pre, none) := by
    rw [redirScan]
    exact redir_scan_missing pre 0 hg (by omega)
  refine ⟨hscan, ?_⟩
  simp only [execute_redirection, hscan]
  have hF : forkCall e ⟨c, fc, pc, []⟩ = (true, ⟨c + 1, fc + 1, pc, [Ev.forked]⟩) := by
    simp [forkCall, hf]
  simp only [redirExec, hF, Bool.not_true, Bool.false_eq_true, if_false]
  cases bg with
  | false => simp [addEv, waitCall]
  | true => simp [addEv]

/-- C9 witness: `ls >` scans to arguments `["ls"]` with no target; the trace
shows no open, no error, a fork, a child exec without file duplication, and
the foreground wait. -/
theorem c9_missing_target_runs_without_redirect_w :
    redirScan ["ls".toList, gtTok] = (["ls".toList], none) ∧
    execute_redirection envAllOk ["ls".toList, gtTok] false ⟨0, 0, 0, []⟩ =
      (0, ⟨0, 1, 0, [Ev.forked, Ev.childExec ["ls".toList] false true, Ev.waitOk]⟩) :=
  c9_missing_target_runs_without_redirect ["ls".toList] false envAllOk 0 0 0
    (by decide) (by decide) (by decide)

/-- C10: the claim says every store into the 16-slot `commands` array uses an
index strictly below its capacity.  On a line whose first whitespace token
holds 16 `|`-separated segments followed by a space and a `|` token, the
split loop fills all 16 slots and the sentinel store at line 291 executes at
index 16 — equal to the capacity, an out-of-bounds write. -/
theorem c10_sentinel_store_at_index_16 :
    16 ∈ line_split_stores ("a|b|c|d|e|f|g|h|i|j|k|l|m|n|o|p |".toList) ∧
    (line_split_stores ("a|b|c|d|e|f|g|h|i|j|k|l|m|n|o|p |".toList)).all
      (fun i => i < 16) = false := by decide
